import Mathlib

/-
  Verification of the `EventEmitter` class from `src/event-emitter.ts` and the
  event types from `src/types.ts` of the `@lilbunnyrabbit/event-emitter` package.

  Embedding notes.
  * Event keys are an abstract type `κ` with decidable equality (TS allows
    string/number/symbol keys); payload values are an abstract type `V`.
  * Listener references are identified by `Nat` (JS reference identity).
  * A JS `Set` is modelled as a duplicate-free `List Nat` in insertion order:
    `Set.add` appends when absent, `Set.delete` removes the element.
  * `this.listeners` is `Partial<{ [k]: Set<..> }>`, i.e. a map from key to an
    optional set; we model it as `κ → Option (List Nat)` (`none` = no entry).
  * `emit` iterates the key set with `Set.prototype.forEach` and the global set
    with `for..of`; both are live iterations over the underlying set: at each
    step the first not-yet-visited element of the *current* set is visited, so
    deletions during dispatch take effect immediately.  `livePass` models this
    with a `visited` list; the fuel passed at entry (the initial set size) is an
    upper bound on the number of iterations because listeners here can only
    shrink the registries.
  * Listeners are defunctionalized: an environment maps each listener id to a
    `Behavior` describing what its body does when invoked (nothing, throw, or
    call one of the emitter's removal methods).  A thrown exception is the
    `Except.error` case and aborts dispatch, as in JS.
  * Each invocation is recorded as a `Call` carrying the emitter value passed
    as the `this` context (`listener.apply(this, data)` / `listener.call(this,
    globalEvent)`), the listener id and the argument(s).
  * JS distinguishes an absent object property from a property whose value is
    `undefined`; `GlobalEvent.data : Option (JSVal V)` keeps that distinction
    (`none` = property absent, `some JSVal.undef` = property present holding
    `undefined`).
-/

/-- A JS value that is either `undefined` or a payload value. -/
inductive JSVal (V : Type) where
  | undef
  | val (v : V)
deriving DecidableEq, Repr

/-- The tagged record passed to global listeners, from `types.ts` /
`emit` in `event-emitter.ts`.  `data = none` means the `data` property is
absent; `some JSVal.undef` means it is present with value `undefined`. -/
structure GlobalEvent (κ V : Type) where
  type : κ
  data : Option (JSVal V)
deriving DecidableEq, Repr

/-- The state of an `EventEmitter` instance: the per-key listener sets and the
global listener set (`listeners` and `globalListeners` fields of the class). -/
structure EmitterState (κ V : Type) where
  listeners : κ → Option (List Nat)
  globalListeners : List Nat

attribute [ext] EmitterState

/-- `Set.prototype.add`: append if not already present (insertion order kept). -/
def setAdd (L : List Nat) (l : Nat) : List Nat :=
  if l ∈ L then L else L ++ [l]

/-- `Set.prototype.delete`: remove the element if present. -/
def setDel (L : List Nat) (l : Nat) : List Nat :=
  L.erase l

/-- `new EventEmitter()`: both registries start empty. -/
def EmitterState.empty (κ V : Type) : EmitterState κ V :=
  { listeners := fun _ => none, globalListeners := [] }

/-- `EventEmitter.on`: create the key's set if absent, then add the listener. -/
def EmitterState.on {κ V : Type} [DecidableEq κ] (s : EmitterState κ V) (k : κ) (l : Nat) :
    EmitterState κ V :=
  let cur : List Nat :=
    match s.listeners k with
    | none => []
    | some L => L
  { s with listeners := fun k2 => if k2 = k then some (setAdd cur l) else s.listeners k2 }

/-- `EventEmitter.off`: if the key has a set, delete the listener from it. -/
def EmitterState.off {κ V : Type} [DecidableEq κ] (s : EmitterState κ V) (k : κ) (l : Nat) :
    EmitterState κ V :=
  match s.listeners k with
  | none => s
  | some L =>
    { s with listeners := fun k2 => if k2 = k then some (setDel L l) else s.listeners k2 }

/-- `EventEmitter.onAll`: add a global listener. -/
def EmitterState.onAll {κ V : Type} (s : EmitterState κ V) (g : Nat) : EmitterState κ V :=
  { s with globalListeners := setAdd s.globalListeners g }

/-- `EventEmitter.offAll`: delete a global listener. -/
def EmitterState.offAll {κ V : Type} (s : EmitterState κ V) (g : Nat) : EmitterState κ V :=
  { s with globalListeners := setDel s.globalListeners g }

/-- `EventEmitter.clear`: delete every own key of `listeners` and clear the
global set. -/
def EmitterState.clear {κ V : Type} (s : EmitterState κ V) : EmitterState κ V :=
  { s with listeners := fun _ => none, globalListeners := [] }

/-- The global event record built by `emit`:
`{ type, data: data.length ? data[0] : undefined }`.  The `data` property is
always written, so it is always present (`some _`). -/
def mkGlobalEvent {κ V : Type} (k : κ) (args : List V) : GlobalEvent κ V :=
  { type := k
    data := some (match args with
      | [] => JSVal.undef
      | v :: _ => JSVal.val v) }

/-- Modelled from the spec (not from the source), for comparison with
`mkGlobalEvent`: the spec describes the tagged record as `{ key, data }`
"omitting `data` when the payload type is void-like", i.e. the `data`
property is absent (`none`) when `emit` received no payload argument. -/
def specGlobalEvent {κ V : Type} (k : κ) (args : List V) : GlobalEvent κ V :=
  { type := k
    data := match args with
      | [] => none
      | v :: _ => some (JSVal.val v) }

/-- What a listener's body does when invoked.  All behaviors either leave the
registries unchanged, shrink them, or throw; this matches the reentrancy
scenarios of the spec and keeps every dispatch pass bounded by the initial
set size. -/
inductive Behavior (κ : Type) where
  | pure
  | throws
  | off (k : κ) (l : Nat)
  | offAll (g : Nat)
  | clear
deriving DecidableEq, Repr

/-- A recorded listener invocation: the emitter value bound as `this`, the
listener id, and what it was called with. -/
inductive Call (κ V : Type) where
  | keyed (ctx : EmitterState κ V) (l : Nat) (args : List V)
  | global (ctx : EmitterState κ V) (g : Nat) (ev : GlobalEvent κ V)

/-- Run a listener body against the current emitter state. -/
def applyBehavior {κ V : Type} [DecidableEq κ] (s : EmitterState κ V) :
    Behavior κ → Except Unit (EmitterState κ V)
  | .pure => .ok s
  | .throws => .error ()
  | .off k l => .ok (s.off k l)
  | .offAll g => .ok (s.offAll g)
  | .clear => .ok s.clear

/-- The next entry a live `Set` iteration visits: the first element of the
current set that has not been visited yet. -/
def nextListener (cur visited : List Nat) : Option Nat :=
  cur.find? fun l => decide (l ∉ visited)

/-- One live iteration pass over a set drawn from the current state by `get`,
recording a `Call` built by `mk` for each visited element and stopping with
`Except.error` when a listener throws.  `fuel` bounds the number of steps; the
callers pass the size of the initial set, which suffices because behaviors
never grow the registries. -/
def livePass {κ V : Type} [DecidableEq κ]
    (get : EmitterState κ V → List Nat) (mk : EmitterState κ V → Nat → Call κ V)
    (env : Nat → Behavior κ) :
    Nat → List Nat → EmitterState κ V → List (Call κ V) × Except Unit (EmitterState κ V)
  | 0, _, s => ([], .ok s)
  | fuel + 1, visited, s =>
    match nextListener (get s) visited with
    | none => ([], .ok s)
    | some l =>
      match applyBehavior s (env l) with
      | .error e => ([mk s l], .error e)
      | .ok s2 =>
        let r := livePass get mk env fuel (visited ++ [l]) s2
        (mk s l :: r.1, r.2)

/-- `EventEmitter.emit`: a live `forEach` pass over the key's set (each
listener applied to `this` and the rest arguments), then one global event
record is built and a live `for..of` pass calls every global listener with it.
Returns the trace of invocations and either the final state (`return this`) or
the propagated exception. -/
def emitRun {κ V : Type} [DecidableEq κ] (s : EmitterState κ V) (k : κ) (args : List V)
    (env : Nat → Behavior κ) : List (Call κ V) × Except Unit (EmitterState κ V) :=
  match livePass (fun s2 => (s2.listeners k).getD []) (fun s2 l => Call.keyed s2 l args) env
      ((s.listeners k).getD []).length [] s with
  | (tr1, .error e) => (tr1, .error e)
  | (tr1, .ok s1) =>
    match livePass (fun s2 => s2.globalListeners)
        (fun s2 g => Call.global s2 g (mkGlobalEvent k args)) env
        s1.globalListeners.length [] s1 with
    | (tr2, r) => (tr1 ++ tr2, r)

/-- Does this call invoke keyed listener `l`? -/
def isKeyedTo {κ V : Type} (l : Nat) : Call κ V → Bool
  | .keyed _ l2 _ => l2 == l
  | .global _ _ _ => false

/-- Does this call invoke global listener `g`? -/
def isGlobalTo {κ V : Type} (g : Nat) : Call κ V → Bool
  | .global _ g2 _ => g2 == g
  | .keyed _ _ _ => false

/-- Is this a call to a global listener? -/
def isGlobalCall {κ V : Type} : Call κ V → Bool
  | .global _ _ _ => true
  | .keyed _ _ _ => false

/-- Duplicate-freedom of an optional listener set. -/
def nodupOpt : Option (List Nat) → Prop
  | none => True
  | some L => L.Nodup

instance : DecidablePred nodupOpt := fun o => by
  cases o <;> (dsimp [nodupOpt]; infer_instance)

/-- Well-formedness of an emitter state: every stored set is duplicate-free,
which is an invariant of JS `Set`s. -/
def WF {κ V : Type} (s : EmitterState κ V) : Prop :=
  (∀ k, nodupOpt (s.listeners k)) ∧ s.globalListeners.Nodup

instance {V : Type} (s : EmitterState Bool V) : Decidable (WF s) := by
  unfold WF; infer_instance

/-! ### Basic list and set lemmas -/

theorem find?_eq_head_filter (p : Nat → Bool) (L : List Nat) :
    L.find? p = (L.filter p).head? := by
  induction L with
  | nil => rfl
  | cons a L ih =>
    by_cases h : p a = true
    · rw [List.find?_cons_of_pos _ h, List.filter_cons_of_pos h]
      rfl
    · rw [List.find?_cons_of_neg _ h, List.filter_cons_of_neg h, ih]

theorem mem_setAdd_self (L : List Nat) (l : Nat) : l ∈ setAdd L l := by
  unfold setAdd
  split <;> simp_all

theorem setAdd_nodup {L : List Nat} (h : L.Nodup) (l : Nat) : (setAdd L l).Nodup := by
  unfold setAdd
  split
  · exact h
  · simp_all [List.nodup_append]

theorem setAdd_idem (L : List Nat) (l : Nat) : setAdd (setAdd L l) l = setAdd L l := by
  unfold setAdd
  split <;> simp_all [mem_setAdd_self, setAdd]

theorem setDel_nodup {L : List Nat} (h : L.Nodup) (l : Nat) : (setDel L l).Nodup :=
  h.erase l

theorem not_mem_setDel_setAdd {L : List Nat} (h : L.Nodup) (l : Nat) :
    l ∉ setDel (setAdd L l) l := by
  unfold setDel
  exact (setAdd_nodup h l).not_mem_erase

theorem filter_not_mem_of_subset {L visited : List Nat} (h : ∀ a ∈ L, a ∈ visited) :
    (L.filter fun l => decide (l ∉ visited)) = [] := by
  rw [List.filter_eq_nil_iff]
  intro a ha
  simpa using h a ha

theorem filter_not_mem_of_disjoint {L visited : List Nat} (h : ∀ a ∈ L, a ∉ visited) :
    (L.filter fun l => decide (l ∉ visited)) = L := by
  rw [List.filter_eq_self]
  intro a ha
  simpa using h a ha

theorem filter_visited_append {pre rest : List Nat} (h : (pre ++ rest).Nodup) :
    ((pre ++ rest).filter fun l => decide (l ∉ pre)) = rest := by
  rw [List.filter_append, filter_not_mem_of_subset (fun a ha => ha),
    filter_not_mem_of_disjoint, List.nil_append]
  intro a ha
  exact fun hp => (List.disjoint_of_nodup_append h) hp ha

theorem filter_beq_singleton {lst : List Nat} {L : Nat} (h : lst.Nodup) (hm : L ∈ lst) :
    (lst.filter fun a => a == L) = [L] := by
  induction lst with
  | nil => cases hm
  | cons a lst ih =>
    by_cases hal : a = L
    · subst hal
      have hrest : (lst.filter fun a2 => a2 == a) = [] := by
        rw [List.filter_eq_nil_iff]
        intro b hb
        simp only [beq_iff_eq]
        rintro rfl
        exact (List.nodup_cons.mp h).1 hb
      simp [List.filter_cons, hrest]
    · have hm2 : L ∈ lst := by
        rcases List.mem_cons.mp hm with h2 | h2
        · exact absurd h2.symm hal
        · exact h2
      have hne : ¬ (a == L) = true := by simpa using hal
      simp [List.filter_cons, hne, ih (List.nodup_cons.mp h).2 hm2]

theorem filter_beq_nil {lst : List Nat} {L : Nat} (hm : L ∉ lst) :
    (lst.filter fun a => a == L) = [] := by
  rw [List.filter_eq_nil_iff]
  intro b hb
  simp only [beq_iff_eq]
  rintro rfl
  exact hm hb

/-! ### State operation lemmas -/

theorem on_listeners_self {κ V : Type} [DecidableEq κ] (s : EmitterState κ V) (k : κ) (l : Nat) :
    (s.on k l).listeners k = some (setAdd ((s.listeners k).getD []) l) := by
  cases h : s.listeners k <;> simp [EmitterState.on, h]

theorem on_listeners_other {κ V : Type} [DecidableEq κ] (s : EmitterState κ V) {k k2 : κ}
    (l : Nat) (h : k2 ≠ k) : (s.on k l).listeners k2 = s.listeners k2 := by
  cases h2 : s.listeners k <;> simp [EmitterState.on, h, h2]

theorem on_globalListeners {κ V : Type} [DecidableEq κ] (s : EmitterState κ V) (k : κ) (l : Nat) :
    (s.on k l).globalListeners = s.globalListeners := by
  cases h : s.listeners k <;> simp [EmitterState.on, h]

theorem off_listeners_self {κ V : Type} [DecidableEq κ] (s : EmitterState κ V) {k : κ} {L : List Nat}
    (l : Nat) (h : s.listeners k = some L) :
    (s.off k l).listeners k = some (setDel L l) := by
  simp [EmitterState.off, h]

theorem off_globalListeners {κ V : Type} [DecidableEq κ] (s : EmitterState κ V) (k : κ) (l : Nat) :
    (s.off k l).globalListeners = s.globalListeners := by
  cases h : s.listeners k <;> simp [EmitterState.off, h]

theorem on_WF {κ V : Type} [DecidableEq κ] {s : EmitterState κ V} (h : WF s) (k : κ) (l : Nat) :
    WF (s.on k l) := by
  obtain ⟨h1, h2⟩ := h
  refine ⟨fun k2 => ?_, by rwa [on_globalListeners]⟩
  by_cases hk : k2 = k
  · subst hk
    rw [on_listeners_self]
    have := h1 k2
    cases hc : s.listeners k2 with
    | none => simpa [hc, nodupOpt] using setAdd_nodup List.nodup_nil l
    | some L =>
      rw [hc] at this
      simpa [hc, nodupOpt] using setAdd_nodup this l
  · rw [on_listeners_other s l hk]
    exact h1 k2

theorem off_WF {κ V : Type} [DecidableEq κ] {s : EmitterState κ V} (h : WF s) (k : κ) (l : Nat) :
    WF (s.off k l) := by
  obtain ⟨h1, h2⟩ := h
  refine ⟨fun k2 => ?_, by rwa [off_globalListeners]⟩
  cases hc : s.listeners k with
  | none => simpa [EmitterState.off, hc] using h1 k2
  | some L =>
    by_cases hk : k2 = k
    · subst hk
      have := h1 k2
      rw [hc] at this
      rw [off_listeners_self s l hc]
      simpa [nodupOpt] using setDel_nodup this l
    · simp only [EmitterState.off, hc]
      simpa [hk] using h1 k2

/-! ### Live iteration lemmas -/

theorem filter_visited_snoc {κ V : Type} [DecidableEq κ] (get : EmitterState κ V → List Nat)
    (s : EmitterState κ V) (visited : List Nat) (a : Nat) :
    ((get s).filter fun l => decide (l ∉ visited ++ [a]))
      = (((get s).filter fun l => decide (l ∉ visited)).filter fun l => decide (l ≠ a)) := by
  rw [List.filter_filter]
  apply List.filter_congr
  intro x _
  by_cases h1 : x ∈ visited <;> by_cases h2 : x = a <;>
    simp [h1, h2, List.mem_append]

theorem livePass_step_none {κ V : Type} [DecidableEq κ]
    (get : EmitterState κ V → List Nat) (mk : EmitterState κ V → Nat → Call κ V)
    (env : Nat → Behavior κ) (fuel : Nat) (visited : List Nat) (s : EmitterState κ V)
    (h : ((get s).filter fun l => decide (l ∉ visited)) = []) :
    livePass get mk env (fuel + 1) visited s = ([], .ok s) := by
  simp only [livePass, nextListener, find?_eq_head_filter, h, List.head?_nil]

theorem livePass_step_ok {κ V : Type} [DecidableEq κ]
    (get : EmitterState κ V → List Nat) (mk : EmitterState κ V → Nat → Call κ V)
    (env : Nat → Behavior κ) (fuel : Nat) (visited : List Nat) (s s2 : EmitterState κ V)
    (a : Nat)
    (hhead : ((get s).filter fun l => decide (l ∉ visited)).head? = some a)
    (hb : applyBehavior s (env a) = .ok s2) :
    livePass get mk env (fuel + 1) visited s
      = (mk s a :: (livePass get mk env fuel (visited ++ [a]) s2).1,
         (livePass get mk env fuel (visited ++ [a]) s2).2) := by
  simp only [livePass, nextListener, find?_eq_head_filter, hhead, hb]

theorem livePass_step_error {κ V : Type} [DecidableEq κ]
    (get : EmitterState κ V → List Nat) (mk : EmitterState κ V → Nat → Call κ V)
    (env : Nat → Behavior κ) (fuel : Nat) (visited : List Nat) (s : EmitterState κ V)
    (a : Nat)
    (hhead : ((get s).filter fun l => decide (l ∉ visited)).head? = some a)
    (hb : applyBehavior s (env a) = .error ()) :
    livePass get mk env (fuel + 1) visited s = ([mk s a], .error ()) := by
  simp only [livePass, nextListener, find?_eq_head_filter, hhead, hb]

theorem livePass_pure_seg {κ V : Type} [DecidableEq κ]
    (get : EmitterState κ V → List Nat) (mk : EmitterState κ V → Nat → Call κ V)
    (env : Nat → Behavior κ) (pre rest : List Nat) :
    ∀ (fuel : Nat) (visited : List Nat) (s : EmitterState κ V),
      (pre ++ rest).Nodup →
      ((get s).filter fun l => decide (l ∉ visited)) = pre ++ rest →
      (∀ l ∈ pre, env l = .pure) →
      livePass get mk env (pre.length + fuel) visited s
        = (pre.map (mk s) ++ (livePass get mk env fuel (visited ++ pre) s).1,
           (livePass get mk env fuel (visited ++ pre) s).2) := by
  induction pre with
  | nil =>
    intro fuel visited s _ _ _
    simp
  | cons a pre ih =>
    intro fuel visited s hnd hfil hpure
    have hnd2 : (a :: (pre ++ rest)).Nodup := by simpa using hnd
    have hnotmem : a ∉ pre ++ rest := (List.nodup_cons.mp hnd2).1
    have hlen : (a :: pre).length + fuel = (pre.length + fuel) + 1 := by
      simp only [List.length_cons]
      omega
    have hhead : ((get s).filter fun l => decide (l ∉ visited)).head? = some a := by
      rw [hfil]
      rfl
    have hb : applyBehavior s (env a) = .ok s := by
      rw [hpure a (List.mem_cons_self a pre)]
      rfl
    have hfil2 : ((get s).filter fun l => decide (l ∉ visited ++ [a])) = pre ++ rest := by
      rw [filter_visited_snoc, hfil, List.cons_append,
        List.filter_cons_of_neg (by simp)]
      rw [List.filter_eq_self]
      intro x hx
      simp only [decide_eq_true_eq]
      rintro rfl
      exact hnotmem hx
    rw [hlen, livePass_step_ok get mk env _ visited s s a hhead hb,
      ih fuel (visited ++ [a]) s (List.nodup_cons.mp hnd2).2 hfil2
        (fun l hl => hpure l (List.mem_cons_of_mem a hl))]
    simp [List.append_assoc]

theorem livePass_pure_full {κ V : Type} [DecidableEq κ]
    (get : EmitterState κ V → List Nat) (mk : EmitterState κ V → Nat → Call κ V)
    (env : Nat → Behavior κ) (s : EmitterState κ V)
    (hnd : (get s).Nodup) (hpure : ∀ l ∈ get s, env l = .pure) :
    livePass get mk env (get s).length [] s = ((get s).map (mk s), .ok s) := by
  have hfil : ((get s).filter fun l => decide (l ∉ ([] : List Nat))) = (get s) ++ [] := by
    simp
  have h := livePass_pure_seg get mk env (get s) [] 0 [] s (by simpa using hnd) hfil hpure
  have h0 : livePass get mk env 0 ([] ++ get s) s = ([], .ok s) := rfl
  rw [h0] at h
  simpa using h

theorem emitRun_pure {κ V : Type} [DecidableEq κ] (s : EmitterState κ V) (k : κ) (args : List V)
    (env : Nat → Behavior κ)
    (hk : ∀ l ∈ (s.listeners k).getD [], env l = .pure)
    (hg : ∀ g ∈ s.globalListeners, env g = .pure)
    (hnk : ((s.listeners k).getD []).Nodup)
    (hng : s.globalListeners.Nodup) :
    emitRun s k args env
      = (((s.listeners k).getD []).map (fun l => Call.keyed s l args)
          ++ s.globalListeners.map (fun g => Call.global s g (mkGlobalEvent k args)),
         .ok s) := by
  have h1 := livePass_pure_full (fun s2 => (s2.listeners k).getD [])
      (fun s2 l => Call.keyed s2 l args) env s hnk hk
  have h2 := livePass_pure_full (fun s2 => s2.globalListeners)
      (fun s2 g => Call.global s2 g (mkGlobalEvent k args)) env s hng hg
  unfold emitRun
  dsimp only at h1 h2 ⊢
  rw [h1]
  dsimp only
  rw [h2]

/-! ### Trace filtering helpers -/

theorem WF_listeners {κ V : Type} {s : EmitterState κ V} (h : WF s) (k : κ) :
    ((s.listeners k).getD []).Nodup := by
  have h2 := h.1 k
  cases hc : s.listeners k with
  | none => simp
  | some L =>
    rw [hc] at h2
    simpa [nodupOpt] using h2

theorem filter_keyedTo_map_keyed {κ V : Type} (s : EmitterState κ V) (args : List V)
    (lst : List Nat) (L : Nat) :
    ((lst.map fun l => Call.keyed s l args).filter (isKeyedTo L))
      = (lst.filter fun a => a == L).map fun l => Call.keyed s l args := by
  rw [List.filter_map]
  congr 1

theorem filter_keyedTo_map_global {κ V : Type} (s : EmitterState κ V) (ev : GlobalEvent κ V)
    (glst : List Nat) (L : Nat) :
    ((glst.map fun g => Call.global s g ev).filter (isKeyedTo L)) = [] := by
  rw [List.filter_map]
  have h : (glst.filter ((isKeyedTo L) ∘ fun g => Call.global s g ev)) = [] := by
    rw [List.filter_eq_nil_iff]
    intro a _
    simp [isKeyedTo, Function.comp]
  rw [h, List.map_nil]

theorem filter_globalTo_map_keyed {κ V : Type} (s : EmitterState κ V) (args : List V)
    (lst : List Nat) (g : Nat) :
    ((lst.map fun l => Call.keyed s l args).filter (isGlobalTo g)) = [] := by
  rw [List.filter_map]
  have h : (lst.filter ((isGlobalTo g) ∘ fun l => Call.keyed s l args)) = [] := by
    rw [List.filter_eq_nil_iff]
    intro a _
    simp [isGlobalTo, Function.comp]
  rw [h, List.map_nil]

theorem filter_globalTo_map_global {κ V : Type} (s : EmitterState κ V) (ev : GlobalEvent κ V)
    (glst : List Nat) (g : Nat) :
    ((glst.map fun g2 => Call.global s g2 ev).filter (isGlobalTo g))
      = (glst.filter fun a => a == g).map fun g2 => Call.global s g2 ev := by
  rw [List.filter_map]
  congr 1

theorem filter_globalCall_map_keyed {κ V : Type} (s : EmitterState κ V) (args : List V)
    (lst : List Nat) :
    ((lst.map fun l => Call.keyed s l args).filter isGlobalCall) = [] := by
  rw [List.filter_map]
  have h : (lst.filter (isGlobalCall ∘ fun l => Call.keyed s l args)) = [] := by
    rw [List.filter_eq_nil_iff]
    intro a _
    simp [isGlobalCall, Function.comp]
  rw [h, List.map_nil]

theorem filter_globalCall_map_global {κ V : Type} (s : EmitterState κ V) (ev : GlobalEvent κ V)
    (glst : List Nat) :
    ((glst.map fun g => Call.global s g ev).filter isGlobalCall)
      = glst.map fun g => Call.global s g ev := by
  rw [List.filter_eq_self]
  intro c hc
  obtain ⟨g, _, rfl⟩ := List.mem_map.mp hc
  rfl

/-! ### Claim theorems: dispatch order, single invocation, removal -/

/-- C7: for every `emit(K, data)` (with listeners whose bodies do not mutate
the registries), all key-specific listeners for `K` are invoked first, in
registration order, and only after all of them are the global listeners
invoked, in registration order, each with the tagged record and the emitter
bound as context. -/
theorem emit_dispatch_order {κ V : Type} [DecidableEq κ] (s : EmitterState κ V) (k : κ)
    (args : List V) (env : Nat → Behavior κ)
    (hWF : WF s)
    (hpk : ∀ l ∈ (s.listeners k).getD [], env l = .pure)
    (hpg : ∀ g ∈ s.globalListeners, env g = .pure) :
    emitRun s k args env
      = (((s.listeners k).getD []).map (fun l => Call.keyed s l args)
          ++ s.globalListeners.map (fun g => Call.global s g (mkGlobalEvent k args)),
         .ok s) :=
  emitRun_pure s k args env hpk hpg (WF_listeners hWF k) hWF.2

/-- Helper shared by several claims: after `on(K, L)` the emission trace holds
exactly one call to `L`, carrying the emitted arguments and the emitter as
context. -/
theorem emit_on_filter_singleton {κ V : Type} [DecidableEq κ] (s : EmitterState κ V)
    (k : κ) (L : Nat) (args : List V) (env : Nat → Behavior κ)
    (hWF : WF s)
    (hpk : ∀ l ∈ ((s.on k L).listeners k).getD [], env l = .pure)
    (hpg : ∀ g ∈ s.globalListeners, env g = .pure) :
    ((emitRun (s.on k L) k args env).1.filter (isKeyedTo L))
      = [Call.keyed (s.on k L) L args] := by
  have hpg2 : ∀ g ∈ (s.on k L).globalListeners, env g = .pure := by
    rw [on_globalListeners]
    exact hpg
  rw [emitRun_pure _ _ _ _ hpk hpg2 (WF_listeners (on_WF hWF k L) k)
    (by rw [on_globalListeners]; exact hWF.2)]
  dsimp only
  rw [List.filter_append, filter_keyedTo_map_keyed, filter_keyedTo_map_global]
  have hself : (((s.on k L).listeners k).getD []) = setAdd ((s.listeners k).getD []) L := by
    rw [on_listeners_self]
    rfl
  rw [hself, filter_beq_singleton (setAdd_nodup (WF_listeners hWF k) L)
    (mem_setAdd_self _ L)]
  simp

/-- C3: every registered global listener is invoked exactly once by
`emit(K, ...)`, with the tagged record, regardless of which (possibly zero)
key-specific listeners are registered for `K`. -/
theorem emit_invokes_global_once {κ V : Type} [DecidableEq κ] (s : EmitterState κ V)
    (k : κ) (args : List V) (env : Nat → Behavior κ) (g : Nat)
    (hWF : WF s) (hmem : g ∈ s.globalListeners)
    (hpk : ∀ l ∈ (s.listeners k).getD [], env l = .pure)
    (hpg : ∀ g2 ∈ s.globalListeners, env g2 = .pure) :
    ((emitRun s k args env).1.filter (isGlobalTo g))
      = [Call.global s g (mkGlobalEvent k args)] := by
  rw [emitRun_pure s k args env hpk hpg (WF_listeners hWF k) hWF.2]
  dsimp only
  rw [List.filter_append, filter_globalTo_map_keyed, filter_globalTo_map_global,
    filter_beq_singleton hWF.2 hmem]
  simp

/-- C5: after `off(K, L)` following a prior `on(K, L)`, a subsequent
`emit(K, ...)` does not invoke `L` at all. -/
theorem emit_after_off_never_invokes {κ V : Type} [DecidableEq κ] (s : EmitterState κ V)
    (k : κ) (L : Nat) (args : List V) (env : Nat → Behavior κ)
    (hWF : WF s)
    (hpk : ∀ l ∈ (((s.on k L).off k L).listeners k).getD [], env l = .pure)
    (hpg : ∀ g ∈ s.globalListeners, env g = .pure) :
    ((emitRun ((s.on k L).off k L) k args env).1.filter (isKeyedTo L)) = [] := by
  have hWF2 := off_WF (on_WF hWF k L) k L
  have hgl : ((s.on k L).off k L).globalListeners = s.globalListeners := by
    rw [off_globalListeners, on_globalListeners]
  have hpg2 : ∀ g ∈ ((s.on k L).off k L).globalListeners, env g = .pure := by
    rw [hgl]
    exact hpg
  rw [emitRun_pure _ _ _ _ hpk hpg2 (WF_listeners hWF2 k) (by rw [hgl]; exact hWF.2)]
  dsimp only
  rw [List.filter_append, filter_keyedTo_map_keyed, filter_keyedTo_map_global]
  have hnotmem : L ∉ ((((s.on k L).off k L).listeners k).getD []) := by
    rw [off_listeners_self _ L (on_listeners_self s k L)]
    exact not_mem_setDel_setAdd (WF_listeners hWF k) L
  rw [filter_beq_nil hnotmem]
  simp

/-- C2: after `on(K, L)`, `emit(K, data)` invokes `L` exactly once, with the
emitted arguments (none for a void-like key) and the emitter bound as `this`. -/
theorem emit_after_on_invokes_once {κ V : Type} [DecidableEq κ] (s : EmitterState κ V)
    (k : κ) (L : Nat) (args : List V) (env : Nat → Behavior κ)
    (hWF : WF s)
    (hpk : ∀ l ∈ ((s.on k L).listeners k).getD [], env l = .pure)
    (hpg : ∀ g ∈ s.globalListeners, env g = .pure) :
    ((emitRun (s.on k L) k args env).1.filter (isKeyedTo L))
      = [Call.keyed (s.on k L) L args] :=
  emit_on_filter_singleton s k L args env hWF hpk hpg

/-! ### No-op removals, clear, set semantics -/

/-- C6: `off` with a key that has no listener collection, or with a listener
that is not in the key's collection, and `offAll` with an unregistered global
listener, are all no-ops: the state (hence both registries) is exactly
unchanged, and the emitter itself is what the chaining methods return. -/
theorem removal_of_absent_noop {κ V : Type} [DecidableEq κ] (s : EmitterState κ V) (k : κ)
    (L g : Nat) :
    (s.listeners k = none → s.off k L = s)
    ∧ (∀ xs, s.listeners k = some xs → L ∉ xs → s.off k L = s)
    ∧ (g ∉ s.globalListeners → s.offAll g = s) := by
  refine ⟨fun h => ?_, fun xs h hnm => ?_, fun hnm => ?_⟩
  · simp [EmitterState.off, h]
  · have hdel : setDel xs L = xs := List.erase_of_not_mem hnm
    simp only [EmitterState.off, h, hdel]
    refine EmitterState.ext ?_ rfl
    funext k2
    by_cases hk : k2 = k
    · subst hk
      simp [h]
    · simp [hk]
  · have hdel : setDel s.globalListeners g = s.globalListeners :=
      List.erase_of_not_mem hnm
    simp only [EmitterState.offAll, hdel]

/-- C8: `clear` leaves the per-key registry with no collection for any key and
the global registry empty, and any subsequent `emit` — for any key, arguments
and listener behaviors — invokes no listener at all and returns the cleared
emitter. -/
theorem clear_empties_registries {κ V : Type} [DecidableEq κ] (s : EmitterState κ V)
    (k : κ) (args : List V) (env : Nat → Behavior κ) :
    s.clear.listeners k = none ∧ s.clear.globalListeners = []
    ∧ emitRun s.clear k args env = ([], .ok s.clear) :=
  ⟨rfl, rfl, rfl⟩

/-- C10: listener storage has JS `Set` semantics: registering the same
listener reference twice (per key or globally) leaves the registry exactly as
one registration does, a subsequent emit invokes it exactly once, and a single
`off`/`offAll` removes it from the registry. -/
theorem registration_set_semantics {κ V : Type} [DecidableEq κ] (s : EmitterState κ V)
    (k : κ) (L g : Nat) (args : List V) (env : Nat → Behavior κ)
    (hWF : WF s)
    (hpk : ∀ l ∈ ((s.on k L).listeners k).getD [], env l = .pure)
    (hpg : ∀ g2 ∈ s.globalListeners, env g2 = .pure) :
    ((s.on k L).on k L = s.on k L)
    ∧ ((s.onAll g).onAll g = s.onAll g)
    ∧ ((emitRun ((s.on k L).on k L) k args env).1.filter (isKeyedTo L)
        = [Call.keyed (s.on k L) L args])
    ∧ (L ∉ ((((s.on k L).on k L).off k L).listeners k).getD [])
    ∧ (g ∉ (((s.onAll g).onAll g).offAll g).globalListeners) := by
  have hidem : (s.on k L).on k L = s.on k L := by
    refine EmitterState.ext ?_ (by rw [on_globalListeners, on_globalListeners])
    funext k2
    by_cases hk : k2 = k
    · subst hk
      simp [on_listeners_self, setAdd_idem]
    · rw [on_listeners_other _ _ hk, on_listeners_other _ _ hk]
  have hidem2 : (s.onAll g).onAll g = s.onAll g := by
    refine EmitterState.ext rfl ?_
    simp [EmitterState.onAll, setAdd_idem]
  refine ⟨hidem, hidem2, ?_, ?_, ?_⟩
  · rw [hidem]
    exact emit_on_filter_singleton s k L args env hWF hpk hpg
  · rw [hidem, off_listeners_self _ L (on_listeners_self s k L), Option.getD_some]
    exact not_mem_setDel_setAdd (WF_listeners hWF k) L
  · rw [hidem2]
    simp only [EmitterState.offAll, EmitterState.onAll]
    exact not_mem_setDel_setAdd hWF.2 g

/-! ### The global event record (C1) -/

/-- C1 (amended): with non-mutating listeners, every registered global
listener is invoked, in registration order, with the emitter as context and
the one tagged record `{ type := k, data := d }`; the `data` property is
always present: `d` is the emitted payload when one was passed, and the JS
`undefined` value when the key is void-like (emit called with no payload). -/
theorem emit_global_record {κ V : Type} [DecidableEq κ] (s : EmitterState κ V) (k : κ)
    (args : List V) (env : Nat → Behavior κ)
    (hWF : WF s)
    (hpk : ∀ l ∈ (s.listeners k).getD [], env l = .pure)
    (hpg : ∀ g ∈ s.globalListeners, env g = .pure) :
    ((emitRun s k args env).1.filter isGlobalCall)
      = s.globalListeners.map (fun g => Call.global s g (mkGlobalEvent k args))
    ∧ (mkGlobalEvent (V := V) k args).type = k
    ∧ (mkGlobalEvent (V := V) k args).data
        = some (match args with | [] => JSVal.undef | v :: _ => JSVal.val v) := by
  refine ⟨?_, rfl, rfl⟩
  rw [emitRun_pure s k args env hpk hpg (WF_listeners hWF k) hWF.2]
  dsimp only
  rw [List.filter_append, filter_globalCall_map_keyed, filter_globalCall_map_global,
    List.nil_append]

/-! ### Concrete instances for witnesses and counterexamples -/

/-- A state with no keyed listeners and the single global listener `7`. -/
def wsA : EmitterState Bool Nat :=
  { listeners := fun _ => none, globalListeners := [7] }

/-- A state with keyed listeners `1, 2` on key `false` and globals `7, 8`. -/
def wsB : EmitterState Bool Nat :=
  { listeners := fun k => match k with | false => some [1, 2] | true => none
    globalListeners := [7, 8] }

/-- An environment in which every listener body does nothing. -/
def envPure : Nat → Behavior Bool := fun _ => Behavior.pure

/-- C1 (counterexample to the claim as stated): emitting the void-like key
`false` with no payload argument, with one registered global listener, passes
that listener a record whose `data` property IS present (holding `undefined`),
not the record without a `data` field that the claim (and `specGlobalEvent`,
which transcribes it) describes. -/
theorem emit_void_data_field_cex :
    (emitRun wsA false ([] : List Nat) envPure).1
      = [Call.global wsA 7 { type := false, data := some JSVal.undef }]
    ∧ mkGlobalEvent (V := Nat) false ([] : List Nat)
        ≠ specGlobalEvent (V := Nat) false ([] : List Nat) := by
  constructor
  · rfl
  · decide

/-! ### Exceptions (C4) -/

/-- C4: if a listener invoked during `emit` throws, the exception propagates
out of `emit` (`Except.error`) and no listener not yet invoked in that
dispatch pass runs: for a throwing key-specific listener the trace stops at
it (remaining key-specific listeners and all global listeners uninvoked); for
a throwing global listener the remaining global listeners are uninvoked.  No
catching or isolation happens anywhere. -/
theorem listener_throw_aborts {κ V : Type} [DecidableEq κ] (s : EmitterState κ V) (k : κ)
    (args : List V) (env : Nat → Behavior κ) (pre rest gpre grest : List Nat) (t : Nat) :
    ((s.listeners k).getD [] = pre ++ t :: rest →
      ((s.listeners k).getD []).Nodup →
      (∀ l ∈ pre, env l = .pure) → env t = .throws →
      emitRun s k args env
        = (pre.map (fun l => Call.keyed s l args) ++ [Call.keyed s t args], .error ())
      ∧ (∀ x ∈ rest, ((emitRun s k args env).1.filter (isKeyedTo x)) = [])
      ∧ ((emitRun s k args env).1.filter isGlobalCall) = [])
    ∧ (s.globalListeners = gpre ++ t :: grest →
      s.globalListeners.Nodup →
      ((s.listeners k).getD []).Nodup →
      (∀ l ∈ (s.listeners k).getD [], env l = .pure) →
      (∀ g ∈ gpre, env g = .pure) → env t = .throws →
      emitRun s k args env
        = (((s.listeners k).getD []).map (fun l => Call.keyed s l args)
            ++ gpre.map (fun g => Call.global s g (mkGlobalEvent k args))
            ++ [Call.global s t (mkGlobalEvent k args)], .error ())
      ∧ (∀ x ∈ grest, ((emitRun s k args env).1.filter (isGlobalTo x)) = [])) := by
  constructor
  · intro hlist hnd hpre ht
    have hnd2 : (pre ++ t :: rest).Nodup := hlist ▸ hnd
    have hdisj := List.disjoint_of_nodup_append hnd2
    have htr : emitRun s k args env
        = (pre.map (fun l => Call.keyed s l args) ++ [Call.keyed s t args], .error ()) := by
      unfold emitRun
      have hlen : ((s.listeners k).getD []).length = pre.length + (rest.length + 1) := by
        rw [hlist]
        simp [List.length_append]
      have hfil0 : (((s.listeners k).getD []).filter
          fun l => decide (l ∉ ([] : List Nat))) = pre ++ t :: rest := by
        simp [hlist]
      have hseg := livePass_pure_seg (fun s2 => (s2.listeners k).getD [])
        (fun s2 l => Call.keyed s2 l args) env pre (t :: rest) (rest.length + 1) [] s
        hnd2 hfil0 hpre
      have hhead : ((((s.listeners k).getD []).filter
          fun l => decide (l ∉ ([] ++ pre)))).head? = some t := by
        simp only [List.nil_append]
        rw [hlist, filter_visited_append hnd2]
        rfl
      have herr := livePass_step_error (fun s2 => (s2.listeners k).getD [])
        (fun s2 l => Call.keyed s2 l args) env rest.length ([] ++ pre) s t hhead
        (by rw [ht]; rfl)
      rw [hlen, hseg, herr]
    refine ⟨htr, ?_, ?_⟩
    · intro x hx
      have hxpre : x ∉ pre := fun hxp => hdisj hxp (List.mem_cons_of_mem t hx)
      have hxt : ¬ (t = x) := by
        rintro rfl
        exact (List.nodup_cons.mp (List.nodup_append.mp hnd2).2.1).1 hx
      rw [htr]
      dsimp only
      rw [List.filter_append, filter_keyedTo_map_keyed, filter_beq_nil hxpre]
      simp [isKeyedTo, hxt]
    · rw [htr]
      dsimp only
      rw [List.filter_append, filter_globalCall_map_keyed]
      simp [isGlobalCall]
  · intro hglist hgnd hnk hpk hgpre ht
    have hgnd2 : (gpre ++ t :: grest).Nodup := hglist ▸ hgnd
    have hgdisj := List.disjoint_of_nodup_append hgnd2
    have htr : emitRun s k args env
        = (((s.listeners k).getD []).map (fun l => Call.keyed s l args)
            ++ gpre.map (fun g => Call.global s g (mkGlobalEvent k args))
            ++ [Call.global s t (mkGlobalEvent k args)], .error ()) := by
      unfold emitRun
      have h1 := livePass_pure_full (fun s2 => (s2.listeners k).getD [])
        (fun s2 l => Call.keyed s2 l args) env s hnk hpk
      dsimp only at h1 ⊢
      rw [h1]
      dsimp only
      have hglen : s.globalListeners.length = gpre.length + (grest.length + 1) := by
        rw [hglist]
        simp [List.length_append]
      have hgfil0 : (s.globalListeners.filter
          fun l => decide (l ∉ ([] : List Nat))) = gpre ++ t :: grest := by
        simp [hglist]
      have hseg := livePass_pure_seg (fun s2 => s2.globalListeners)
        (fun s2 g => Call.global s2 g (mkGlobalEvent k args)) env gpre (t :: grest)
        (grest.length + 1) [] s hgnd2 hgfil0 hgpre
      have hhead : ((s.globalListeners.filter
          fun l => decide (l ∉ ([] ++ gpre)))).head? = some t := by
        simp only [List.nil_append]
        rw [hglist, filter_visited_append hgnd2]
        rfl
      have herr := livePass_step_error (fun s2 => s2.globalListeners)
        (fun s2 g => Call.global s2 g (mkGlobalEvent k args)) env grest.length
        ([] ++ gpre) s t hhead (by rw [ht]; rfl)
      rw [hglen, hseg, herr]
      simp [List.append_assoc]
    refine ⟨htr, ?_⟩
    intro x hx
    have hxpre : x ∉ gpre := fun hxp => hgdisj hxp (List.mem_cons_of_mem t hx)
    have hxt : ¬ (t = x) := by
      rintro rfl
      exact (List.nodup_cons.mp (List.nodup_append.mp hgnd2).2.1).1 hx
    rw [htr]
    dsimp only
    rw [List.filter_append, List.filter_append, filter_globalTo_map_keyed,
      filter_globalTo_map_global, filter_beq_nil hxpre]
    simp [isGlobalTo, hxt]

/-! ### Reentrant self-removal (C9) -/

/-- C9: a key listener whose body removes itself (`off` on its own key and
reference) during its own invocation: the emission still completes without
error and delivers to every other listener of the pass exactly once (and to
all global listeners), and a subsequent emit of the same key no longer
invokes the removed listener. -/
theorem self_removal_during_emit {κ V : Type} [DecidableEq κ] (s : EmitterState κ V)
    (k : κ) (args args2 : List V) (env : Nat → Behavior κ) (pre post : List Nat) (x : Nat)
    (hlist : (s.listeners k).getD [] = pre ++ x :: post)
    (hnd : ((s.listeners k).getD []).Nodup)
    (hx : env x = .off k x)
    (hpure : ∀ l ∈ pre ++ post, env l = .pure)
    (hgnd : s.globalListeners.Nodup)
    (hgpure : ∀ g ∈ s.globalListeners, env g = .pure) :
    emitRun s k args env
      = (pre.map (fun l => Call.keyed s l args)
          ++ Call.keyed s x args
            :: (post.map (fun l => Call.keyed (s.off k x) l args)
              ++ s.globalListeners.map
                  (fun g => Call.global (s.off k x) g (mkGlobalEvent k args))),
         .ok (s.off k x))
    ∧ (∀ l ∈ pre ++ post, ((emitRun s k args env).1.filter (isKeyedTo l)).length = 1)
    ∧ ((emitRun (s.off k x) k args2 env).1.filter (isKeyedTo x)) = [] := by
  have hnd2 : (pre ++ x :: post).Nodup := hlist ▸ hnd
  have hmid : (x :: (pre ++ post)).Nodup := List.nodup_middle.mp hnd2
  have hxnotin : x ∉ pre ++ post := (List.nodup_cons.mp hmid).1
  have hndpp : (pre ++ post).Nodup := (List.nodup_cons.mp hmid).2
  have hxpre : x ∉ pre := fun hq => hxnotin (List.mem_append_left post hq)
  have hxpost : x ∉ post := fun hq => hxnotin (List.mem_append_right pre hq)
  have hsome : s.listeners k = some (pre ++ x :: post) := by
    have hlist2 := hlist
    cases hc : s.listeners k with
    | none =>
      rw [hc] at hlist2
      simp at hlist2
    | some L =>
      rw [hc] at hlist2
      simp only [Option.getD_some] at hlist2
      rw [hlist2]
  have hserase : setDel (pre ++ x :: post) x = pre ++ post := by
    unfold setDel
    rw [List.erase_append_right _ hxpre, List.erase_cons_head]
  have hs2 : (s.off k x).listeners k = some (pre ++ post) := by
    rw [off_listeners_self s x hsome, hserase]
  have hgl : (s.off k x).globalListeners = s.globalListeners := off_globalListeners s k x
  have htr : emitRun s k args env
      = (pre.map (fun l => Call.keyed s l args)
          ++ Call.keyed s x args
            :: (post.map (fun l => Call.keyed (s.off k x) l args)
              ++ s.globalListeners.map
                  (fun g => Call.global (s.off k x) g (mkGlobalEvent k args))),
         .ok (s.off k x)) := by
    unfold emitRun
    have hlen : ((s.listeners k).getD []).length = pre.length + (post.length + 1) := by
      rw [hlist]
      simp [List.length_append]
    have hfil0 : (((s.listeners k).getD []).filter
        fun l => decide (l ∉ ([] : List Nat))) = pre ++ x :: post := by
      simp [hlist]
    have hseg := livePass_pure_seg (fun s2 => (s2.listeners k).getD [])
      (fun s2 l => Call.keyed s2 l args) env pre (x :: post) (post.length + 1) [] s
      hnd2 hfil0 (fun l hl => hpure l (List.mem_append_left post hl))
    have hhead : ((((s.listeners k).getD []).filter
        fun l => decide (l ∉ ([] ++ pre)))).head? = some x := by
      simp only [List.nil_append]
      rw [hlist, filter_visited_append hnd2]
      rfl
    have hstep := livePass_step_ok (fun s2 => (s2.listeners k).getD [])
      (fun s2 l => Call.keyed s2 l args) env post.length ([] ++ pre) s (s.off k x) x hhead
      (by rw [hx]; rfl)
    have hfil2 : ((((s.off k x).listeners k).getD []).filter
        fun l => decide (l ∉ (([] ++ pre) ++ [x]))) = post ++ [] := by
      rw [hs2]
      simp only [Option.getD_some, List.nil_append]
      rw [List.filter_append,
        filter_not_mem_of_subset (fun a ha => List.mem_append_left [x] ha),
        filter_not_mem_of_disjoint (fun a ha hmem => by
          rcases List.mem_append.mp hmem with h1 | h1
          · exact (List.disjoint_of_nodup_append hndpp) h1 ha
          · rw [List.mem_singleton] at h1
            subst h1
            exact hxpost ha)]
      simp
    have hseg2 := livePass_pure_seg (fun s2 => (s2.listeners k).getD [])
      (fun s2 l => Call.keyed s2 l args) env post [] 0 (([] ++ pre) ++ [x]) (s.off k x)
      (by simpa using (List.nodup_append.mp hndpp).2.1) hfil2
      (fun l hl => hpure l (List.mem_append_right pre hl))
    simp only [Nat.add_zero] at hseg2
    have h0 : livePass (fun s2 => (s2.listeners k).getD [])
        (fun s2 l => Call.keyed s2 l args) env 0 ((([] ++ pre) ++ [x]) ++ post) (s.off k x)
        = ([], .ok (s.off k x)) := rfl
    have hgfull := livePass_pure_full (fun s2 => s2.globalListeners)
      (fun s2 g => Call.global s2 g (mkGlobalEvent k args)) env (s.off k x)
      (by dsimp only; rw [hgl]; exact hgnd)
      (by dsimp only; rw [hgl]; exact hgpure)
    dsimp only at hgfull
    rw [hlen, hseg, hstep, hseg2, h0]
    dsimp only
    rw [hgfull]
    simp [List.append_assoc, hgl]
  refine ⟨htr, ?_, ?_⟩
  · intro l hl
    have hlx : ¬ (x = l) := fun he => hxnotin (he ▸ hl)
    rw [htr]
    dsimp only
    rcases List.mem_append.mp hl with hpl | hpl
    · have hlpost : l ∉ post := fun hq => (List.disjoint_of_nodup_append hndpp) hpl hq
      simp [List.filter_append, List.filter_cons, isKeyedTo, hlx,
        filter_keyedTo_map_keyed, filter_keyedTo_map_global,
        filter_beq_singleton (List.nodup_append.mp hndpp).1 hpl,
        filter_beq_nil hlpost]
    · have hlpre : l ∉ pre := fun hq => (List.disjoint_of_nodup_append hndpp) hq hpl
      simp [List.filter_append, List.filter_cons, isKeyedTo, hlx,
        filter_keyedTo_map_keyed, filter_keyedTo_map_global,
        filter_beq_singleton (List.nodup_append.mp hndpp).2.1 hpl,
        filter_beq_nil hlpre]
  · have hkp : ∀ l ∈ ((s.off k x).listeners k).getD [], env l = .pure := by
      rw [hs2]
      simp only [Option.getD_some]
      exact hpure
    have hgp : ∀ g ∈ (s.off k x).globalListeners, env g = .pure := by
      rw [hgl]
      exact hgpure
    have hnkp : (((s.off k x).listeners k).getD []).Nodup := by
      rw [hs2]
      simpa using hndpp
    have hngp : (s.off k x).globalListeners.Nodup := by
      rw [hgl]
      exact hgnd
    rw [emitRun_pure (s.off k x) k args2 env hkp hgp hnkp hngp]
    dsimp only
    rw [List.filter_append, filter_keyedTo_map_keyed, filter_keyedTo_map_global, hs2]
    simp only [Option.getD_some]
    rw [filter_beq_nil hxnotin]
    simp

/-! ### Witnesses -/

/-- A state with keyed listeners `1, 2, 3` on key `false` and globals `7, 8`. -/
def wsC : EmitterState Bool Nat :=
  { listeners := fun k => match k with | false => some [1, 2, 3] | true => none
    globalListeners := [7, 8] }

/-- A state with keyed listeners `1, 2, 3` on key `false` and global `7`. -/
def wsD : EmitterState Bool Nat :=
  { listeners := fun k => match k with | false => some [1, 2, 3] | true => none
    globalListeners := [7] }

/-- Listener `2` throws; all others do nothing. -/
def envThrow2 : Nat → Behavior Bool := fun n => if n = 2 then .throws else .pure

/-- Global listener `7` throws; all others do nothing. -/
def envThrow7 : Nat → Behavior Bool := fun n => if n = 7 then .throws else .pure

/-- Listener `2` removes itself from key `false`; all others do nothing. -/
def envOff2 : Nat → Behavior Bool := fun n => if n = 2 then .off false 2 else .pure

theorem emit_dispatch_order_witness :
    emitRun wsB false [5] envPure
      = (((wsB.listeners false).getD []).map (fun l => Call.keyed wsB l [5])
          ++ wsB.globalListeners.map (fun g => Call.global wsB g (mkGlobalEvent false [5])),
         .ok wsB) :=
  emit_dispatch_order wsB false [5] envPure (by decide) (by decide) (by decide)

theorem emit_after_on_invokes_once_witness :
    ((emitRun (wsB.on false 3) false [5] envPure).1.filter (isKeyedTo 3))
      = [Call.keyed (wsB.on false 3) 3 [5]] :=
  emit_after_on_invokes_once wsB false 3 [5] envPure (by decide) (by decide) (by decide)

theorem emit_invokes_global_once_witness :
    ((emitRun wsA false [5] envPure).1.filter (isGlobalTo 7))
      = [Call.global wsA 7 (mkGlobalEvent false [5])] :=
  emit_invokes_global_once wsA false [5] envPure 7 (by decide) (by decide) (by decide)
    (by decide)

theorem emit_after_off_never_invokes_witness :
    ((emitRun ((wsB.on false 3).off false 3) false [5] envPure).1.filter (isKeyedTo 3))
      = [] :=
  emit_after_off_never_invokes wsB false 3 [5] envPure (by decide) (by decide) (by decide)

theorem removal_of_absent_noop_witness :
    wsA.off false 5 = wsA ∧ wsB.off false 5 = wsB ∧ wsA.offAll 9 = wsA :=
  ⟨(removal_of_absent_noop wsA false 5 9).1 (by decide),
   (removal_of_absent_noop wsB false 5 9).2.1 [1, 2] (by decide) (by decide),
   (removal_of_absent_noop wsA false 5 9).2.2 (by decide)⟩

theorem registration_set_semantics_witness :
    ((wsB.on false 3).on false 3 = wsB.on false 3)
    ∧ ((wsB.onAll 9).onAll 9 = wsB.onAll 9)
    ∧ ((emitRun ((wsB.on false 3).on false 3) false [5] envPure).1.filter (isKeyedTo 3)
        = [Call.keyed (wsB.on false 3) 3 [5]])
    ∧ (3 ∉ ((((wsB.on false 3).on false 3).off false 3).listeners false).getD [])
    ∧ (9 ∉ (((wsB.onAll 9).onAll 9).offAll 9).globalListeners) :=
  registration_set_semantics wsB false 3 9 [5] envPure (by decide) (by decide) (by decide)

theorem emit_global_record_witness :
    ((emitRun wsA false ([] : List Nat) envPure).1.filter isGlobalCall)
      = wsA.globalListeners.map (fun g => Call.global wsA g (mkGlobalEvent false []))
    ∧ (mkGlobalEvent (V := Nat) false ([] : List Nat)).type = false
    ∧ (mkGlobalEvent (V := Nat) false ([] : List Nat)).data = some JSVal.undef :=
  emit_global_record wsA false [] envPure (by decide) (by decide) (by decide)

theorem listener_throw_aborts_witness :
    (emitRun wsC false [5] envThrow2
        = ([1].map (fun l => Call.keyed wsC l [5]) ++ [Call.keyed wsC 2 [5]], .error ())
      ∧ (∀ x ∈ [3], ((emitRun wsC false [5] envThrow2).1.filter (isKeyedTo x)) = [])
      ∧ ((emitRun wsC false [5] envThrow2).1.filter isGlobalCall) = [])
    ∧ (emitRun wsC false [5] envThrow7
        = (((wsC.listeners false).getD []).map (fun l => Call.keyed wsC l [5])
            ++ ([] : List Nat).map (fun g => Call.global wsC g (mkGlobalEvent false [5]))
            ++ [Call.global wsC 7 (mkGlobalEvent false [5])], .error ())
      ∧ (∀ x ∈ [8], ((emitRun wsC false [5] envThrow7).1.filter (isGlobalTo x)) = [])) :=
  ⟨(listener_throw_aborts wsC false [5] envThrow2 [1] [3] [] [] 2).1 (by decide) (by decide)
      (by decide) (by decide),
   (listener_throw_aborts wsC false [5] envThrow7 [] [] [] [8] 7).2 (by decide) (by decide)
      (by decide) (by decide) (by decide) (by decide)⟩

theorem self_removal_during_emit_witness :
    emitRun wsD false [5] envOff2
      = ([1].map (fun l => Call.keyed wsD l [5])
          ++ Call.keyed wsD 2 [5]
            :: ([3].map (fun l => Call.keyed (wsD.off false 2) l [5])
              ++ wsD.globalListeners.map
                  (fun g => Call.global (wsD.off false 2) g (mkGlobalEvent false [5]))),
         .ok (wsD.off false 2))
    ∧ (∀ l ∈ [1] ++ [3], ((emitRun wsD false [5] envOff2).1.filter (isKeyedTo l)).length = 1)
    ∧ ((emitRun (wsD.off false 2) false [6] envOff2).1.filter (isKeyedTo 2)) = [] :=
  self_removal_during_emit wsD false [5] [6] envOff2 [1] [3] 2 (by decide) (by decide)
    (by decide) (by decide) (by decide) (by decide)
